import Mathlib

/-!
Verification development for the `levee` self-tuning circuit breaker
(package `levee`, files `levee.go` / `levee_impl.go` / `metrics.go`).

Modelling conventions:
* Go `float64` values are modelled as exact rationals (`ℚ`); arithmetic is
  exact.  Where IEEE-754 edge behaviour is essential it is modelled
  explicitly: division producing NaN / ±Inf is captured by `FloatVal`
  (used by `TimeSeries.Derivative`), and the binary64 rounding of the
  literal `0.99` and of the float product in the p99 index is captured by
  `fpRound` (round-to-nearest-even at 53-bit precision, exact over `ℚ`).
* Go `time.Time` instants and `time.Duration` values are both modelled as
  integer microseconds (`ℤ`); `t.UnixMicro()` is the identity, and
  `end.Sub(start).Microseconds()` is `endT - start`.
* `time.Now()` occurrences inside a call are supplied as explicit
  parameters (`start`, `endT`, `now`).
* Mutex operations, the atomic counter discipline and channels have no
  effect on the sequential semantics and are dropped; `concurrents` is an
  ordinary field, incremented on entry of an admitted region and
  decremented on every return path (Go `defer cb.RemoveConcurrent()`).
* The user function `f : func() error` is represented by its outcome
  `fErr : Option ℕ` (`none` = nil error, `some e` = the error value it
  returns); whether the breaker actually invokes `f` is recorded in the
  `invoked` flag of `CallResult`.
-/

namespace Levee

/-- Go: `type State uint8` with `INIT, CLOSED, OPEN, HALF_OPEN` (levee.go). -/
inductive State where
  | INIT
  | CLOSED
  | OPEN
  | HALF_OPEN
deriving DecidableEq, Repr

export State (INIT CLOSED OPEN HALF_OPEN)

/-- Go: `type SLO struct` (levee.go).  `Timeout` and `Warmup` are
`time.Duration`, modelled in microseconds. -/
structure SLO where
  SuccessRate : ℚ
  Timeout : ℤ
  Warmup : ℤ
deriving DecidableEq

/-- Go: `type EWMA struct { base, ewmaLo, ewmaHi float64 }` (metrics.go). -/
structure EWMA where
  base : ℚ
  ewmaLo : ℚ
  ewmaHi : ℚ
deriving DecidableEq

/-- Go: `type TimeSeries struct` (metrics.go).  A Go slice carries its
capacity, so the embedding keeps `cap` as an explicit field next to the
element list.  The four `*EWMA` pointers (nil until the first flush) are
`Option EWMA`. -/
structure TimeSeries where
  values : List ℚ
  cap : ℕ
  mean : ℚ
  sumAD : ℚ
  sumVT : ℚ
  sumTT : ℚ
  delta_t : ℚ
  value : Option EWMA
  p99 : Option EWMA
  deviation : Option EWMA
  derivative : Option EWMA
  _size : ℕ
deriving DecidableEq

/-- Go zero value of `TimeSeries` (what `newMetrics` leaves `requests` at). -/
def zeroTS : TimeSeries :=
  { values := [], cap := 0, mean := 0, sumAD := 0, sumVT := 0, sumTT := 0,
    delta_t := 0, value := none, p99 := none, deviation := none,
    derivative := none, _size := 0 }

/-- Go: `const extLo = 300` (metrics.go). -/
def extLo : ℚ := 300

/-- Go: `const extHi = 90000` (metrics.go). -/
def extHi : ℚ := 90000

/-! ### Binary64 rounding model

`updateEWMAs` computes the p99 index as `int(float64(len(s.values)) * 0.99)`.
The literal `0.99` is the binary64 double nearest to 99/100 and the float
product rounds the exact product to the nearest double (ties to even).
The following functions model that rounding exactly over `ℚ` for positive
normal-range values (the only ones that occur: `0.99` and `n·0.99` with
`1 ≤ n ≤ 65535`); overflow and subnormals are out of range here. -/

/-- Fuel-based `⌊log₂ n⌋` on naturals (`0` for `n = 0`); any `fuel ≥ n`
is enough. -/
def nlog2 : ℕ → ℕ → ℕ
  | 0, _ => 0
  | fuel + 1, n => if n < 2 then 0 else nlog2 fuel (n / 2) + 1

/-- Fuel-based `⌈log₂ n⌉` on naturals (`0` for `n ≤ 1`); any `fuel ≥ n`
is enough. -/
def nclog2 : ℕ → ℕ → ℕ
  | 0, _ => 0
  | fuel + 1, n => if n ≤ 1 then 0 else nclog2 fuel ((n + 1) / 2) + 1

/-- `⌊log₂ q⌋` for a positive rational. -/
def floorLog2 (q : ℚ) : ℤ :=
  if 1 ≤ q then (nlog2 ⌊q⌋.toNat ⌊q⌋.toNat : ℤ)
  else -(nclog2 ⌈q⁻¹⌉.toNat ⌈q⁻¹⌉.toNat : ℤ)

/-- Exponent of the binary64 rounding grid around `q`: doubles near `q` are
the integer multiples of `2 ^ eExp q`. -/
def eExp (q : ℚ) : ℤ := floorLog2 q - 52

/-- Round a rational to the nearest integer, ties to even. -/
def nearestInt (x : ℚ) : ℤ :=
  let f := ⌊x⌋
  if x - f < 1 / 2 then f
  else if 1 / 2 < x - f then f + 1
  else if Even f then f else f + 1

/-- Round a positive rational to the nearest binary64 value
(round-to-nearest, ties to even), represented exactly as a rational. -/
def fpRound (q : ℚ) : ℚ :=
  (nearestInt (q * 2 ^ (-eExp q)) : ℚ) * 2 ^ (eExp q)

/-- The binary64 value of the Go literal `0.99`. -/
def fp099 : ℚ := fpRound (99 / 100)

/-- Go: `i_99 := int(float64(len(s.values)) * 0.99)` (metrics.go,
`updateEWMAs`): binary64 product of the exact `n` with the double `0.99`,
truncated to int (toward zero; the value is nonnegative). -/
def i99 (n : ℕ) : ℕ := ⌊fpRound ((n : ℚ) * fp099)⌋.toNat

/-- Go: `sort.Float64s(sorted)` — ascending sort (insertion sort is used as
the model; any correct sort agrees). -/
def sortAsc (l : List ℚ) : List ℚ := l.insertionSort (· ≤ ·)

/-- Go (metrics.go, `updateEWMAs`):
`sorted := slices.Clone(s.values); sort.Float64s(sorted); p99 := sorted[i_99]`.
The index is in bounds for every batch length in range (see `i99_eq`);
`getD` supplies a default that is never used there. -/
def batchP99 (l : List ℚ) : ℚ := (sortAsc l).getD (i99 l.length) 0

/-- One EWMA-triple update step of `updateEWMAs` (metrics.go): lazily
initialize on first flush, otherwise `base := x` and the two horizons move
by their `α`. -/
def ewmaStep (old : Option EWMA) (alphaLo alphaHi x : ℚ) : Option EWMA :=
  match old with
  | none => some { base := x, ewmaLo := x, ewmaHi := x }
  | some w =>
      some { base := x,
             ewmaLo := (1 - alphaLo) * w.ewmaLo + alphaLo * x,
             ewmaHi := (1 - alphaHi) * w.ewmaHi + alphaHi * x }

/-- Go: `func (s *TimeSeries) Derivative() float64` (metrics.go) —
`return sumXY / sumXX` with no guard.  `DerivativeQ` is the exact-rational
abstraction of the quotient used where the result feeds further float
arithmetic; note that Lean's `ℚ` convention `x / 0 = 0` stands in for the
IEEE NaN/Inf results there (the faithful edge-case model is
`TimeSeries.Derivative` below). -/
def TimeSeries.DerivativeQ (s : TimeSeries) : ℚ := s.sumVT / s.sumTT

/-- Go: `func (s *TimeSeries) updateEWMAs()` (metrics.go).  Called at flush
with `values` still full; it touches only the four EWMA pointers. -/
def TimeSeries.updateEWMAs (s : TimeSeries) : TimeSeries :=
  let alphaLo := 1 / (s._size : ℚ) / extLo
  let alphaHi := 1 / (s._size : ℚ) / extHi
  let n : ℚ := (s.values.length : ℚ)
  { s with
    value := ewmaStep s.value alphaLo alphaHi s.mean,
    p99 := ewmaStep s.p99 alphaLo alphaHi (batchP99 s.values),
    deviation := ewmaStep s.deviation alphaLo alphaHi (s.sumAD / n),
    derivative := ewmaStep s.derivative alphaLo alphaHi s.DerivativeQ }

/-- Go: `func (s *TimeSeries) Record(value float64, t time.Time)`
(metrics.go).  `append` on a full slice would grow the capacity (doubling,
`1` from `0`); for the series built by `newMetrics` the buffer is cleared
exactly when it reaches capacity, so growth never happens there. -/
def TimeSeries.Record (s : TimeSeries) (value : ℚ) (t : ℤ) : TimeSeries :=
  let s := if s.values.length = 0 then { s with delta_t := (t : ℚ) } else s
  let cap := if s.values.length < s.cap then s.cap else max 1 (2 * s.cap)
  let values := s.values ++ [value]
  let mean := s.mean + (value - s.mean) / (values.length : ℚ)
  let sumAD := s.sumAD + (value - mean)
  let normalized_t := (t : ℚ) - s.delta_t
  let sumVT := s.sumVT + value * normalized_t
  let sumTT := s.sumTT + normalized_t * normalized_t
  let s := { s with values := values, cap := cap, mean := mean,
                    sumAD := sumAD, sumVT := sumVT, sumTT := sumTT }
  if s.values.length = s.cap ∧ 0 < s.cap then
    let s := s.updateEWMAs
    { s with values := [] }
  else s

/-- Go: `func (s *TimeSeries) ResetBase()` (metrics.go). -/
def TimeSeries.ResetBase (s : TimeSeries) : TimeSeries :=
  { s with values := [], mean := 0, sumAD := 0, sumVT := 0, sumTT := 0,
           delta_t := 0 }

/-- Go: `func (s *TimeSeries) FillRate() float64` (metrics.go). -/
def TimeSeries.FillRate (s : TimeSeries) : ℚ :=
  (s.values.length : ℚ) / (s.cap : ℚ)

/-- Result values of Go float64 operations whose IEEE edge cases matter:
a finite value (exact rational), ±infinity, or NaN. -/
inductive FloatVal where
  | finite (q : ℚ)
  | posInf
  | negInf
  | nan
deriving DecidableEq

/-- IEEE-754 division of two finite doubles with a (positive-zero) divisor,
keeping the quotient exact when the divisor is nonzero: `0/0 = NaN`,
`±x/0 = ±Inf`. -/
def goDivFin (a b : ℚ) : FloatVal :=
  if b = 0 then
    if a = 0 then FloatVal.nan
    else if 0 < a then FloatVal.posInf
    else FloatVal.negInf
  else FloatVal.finite (a / b)

/-- Go: `func (s *TimeSeries) Derivative() float64` (metrics.go) — the
faithful model: `return sumXY / sumXX` performed unconditionally, with the
IEEE results at a zero divisor. -/
def TimeSeries.Derivative (s : TimeSeries) : FloatVal :=
  goDivFin s.sumVT s.sumTT

/-- Go: `DerivativeBase` (metrics.go): 0 when the triple is nil. -/
def TimeSeries.DerivativeBase (s : TimeSeries) : ℚ :=
  match s.derivative with
  | none => 0
  | some w => w.base

/-- Go: `DerivativeMid` (metrics.go). -/
def TimeSeries.DerivativeMid (s : TimeSeries) : ℚ :=
  match s.derivative with
  | none => 0
  | some w => w.ewmaLo

/-- Go: `DerivativeLong` (metrics.go). -/
def TimeSeries.DerivativeLong (s : TimeSeries) : ℚ :=
  match s.derivative with
  | none => 0
  | some w => w.ewmaHi

/-- Go: `func (s *TimeSeries) Mean() float64` (metrics.go).  The literal
`1e-9` is modelled as the exact rational `1/10^9` (consistent with the
exact-arithmetic abstraction). -/
def TimeSeries.Mean (s : TimeSeries) : ℚ :=
  let sampleSize : ℚ := (s.values.length : ℚ)
  if s.values.length = 0 then
    match s.value with
    | none => 0
    | some w => w.base
  else
    match s.value with
    | none => s.mean
    | some w =>
        let historicalWeight : ℚ := (s._size : ℚ)
        let currentWeight := sampleSize * sampleSize / (s.sumAD + 1 / 1000000000)
        ((s._size : ℚ) * w.base + currentWeight * s.mean) /
          (historicalWeight + currentWeight)

/-- Go: `MeanBase` (metrics.go). -/
def TimeSeries.MeanBase (s : TimeSeries) : ℚ :=
  match s.value with
  | none => 0
  | some w => w.base

/-- Go: `MeanMid` (metrics.go). -/
def TimeSeries.MeanMid (s : TimeSeries) : ℚ :=
  match s.value with
  | none => 0
  | some w => w.ewmaLo

/-- Go: `MeanLong` (metrics.go). -/
def TimeSeries.MeanLong (s : TimeSeries) : ℚ :=
  match s.value with
  | none => 0
  | some w => w.ewmaHi

/-- Go: `P99Base` (metrics.go). -/
def TimeSeries.P99Base (s : TimeSeries) : ℚ :=
  match s.p99 with
  | none => 0
  | some w => w.base

/-- Go: `Deviation` (metrics.go): `sumAD / len(values)`, guarded to 0 on an
empty buffer. -/
def TimeSeries.Deviation (s : TimeSeries) : ℚ :=
  if s.values.length = 0 then 0
  else s.sumAD / (s.values.length : ℚ)

/-- Go: `DeviationBase` (metrics.go). -/
def TimeSeries.DeviationBase (s : TimeSeries) : ℚ :=
  match s.deviation with
  | none => 0
  | some w => w.base

/-- Go: `DeviationMid` (metrics.go). -/
def TimeSeries.DeviationMid (s : TimeSeries) : ℚ :=
  match s.deviation with
  | none => 0
  | some w => w.ewmaLo

/-- Go: `DeviationLong` (metrics.go). -/
def TimeSeries.DeviationLong (s : TimeSeries) : ℚ :=
  match s.deviation with
  | none => 0
  | some w => w.ewmaHi

/-- Go: `type metrics struct` (metrics.go) — four named TimeSeries. -/
structure Metrics where
  concurrency : TimeSeries
  latency : TimeSeries
  errors : TimeSeries
  requests : TimeSeries
deriving DecidableEq

/-- Go: `func newMetrics(size uint16) *metrics` (metrics.go).  The source
initializes `concurrency`, `latency` and `errors` with capacity `size` and
`_size: size` but omits `requests`, which is left at the Go zero value. -/
def newMetrics (size : ℕ) : Metrics :=
  { concurrency := { zeroTS with cap := size, _size := size },
    latency := { zeroTS with cap := size, _size := size },
    errors := { zeroTS with cap := size, _size := size },
    requests := zeroTS }

/-- Go: `RecordConcurrency` (metrics.go). -/
def Metrics.RecordConcurrency (m : Metrics) (v : ℚ) (t : ℤ) : Metrics :=
  { m with concurrency := m.concurrency.Record v t }

/-- Go: `RecordLatency` (metrics.go). -/
def Metrics.RecordLatency (m : Metrics) (v : ℚ) (t : ℤ) : Metrics :=
  { m with latency := m.latency.Record v t }

/-- Go: `RecordErrors` (metrics.go). -/
def Metrics.RecordErrors (m : Metrics) (v : ℚ) (t : ℤ) : Metrics :=
  { m with errors := m.errors.Record v t }

/-- Go: `RecordRequests` (metrics.go). -/
def Metrics.RecordRequests (m : Metrics) (v : ℚ) (t : ℤ) : Metrics :=
  { m with requests := m.requests.Record v t }

/-- Go: `func (m *metrics) Reset()` (metrics.go). -/
def Metrics.Reset (m : Metrics) : Metrics :=
  { concurrency := m.concurrency.ResetBase,
    latency := m.latency.ResetBase,
    errors := m.errors.ResetBase,
    requests := m.requests.ResetBase }

/-- The two sentinel errors of levee_impl.go plus a pass-through of the
user function's error value. -/
inductive CBError where
  | ErrCircuitOpen
  | ErrCircuitHalfOpen
  | user (e : ℕ)
deriving DecidableEq

/-- Go: `type CircuitBreaker struct` (levee_impl.go); the mutex is dropped
(sequential semantics), `concurrents` is an `int32`-valued counter. -/
structure CircuitBreaker where
  stated_slo : SLO
  revised_slo : SLO
  metrics : Metrics
  concurrents : ℤ
  state : State
  lastOpenAt : ℤ
deriving DecidableEq

/-- Go: `func NewCircuitBreaker(slo SLO, size uint16) *CircuitBreaker`
(levee_impl.go).  The zero value of `lastOpenAt` is the epoch, modelled
as 0. -/
def NewCircuitBreaker (slo : SLO) (size : ℕ) : CircuitBreaker :=
  { stated_slo := slo, revised_slo := slo, metrics := newMetrics size,
    concurrents := 0, state := CLOSED, lastOpenAt := 0 }

/-- Go: `func (cb *CircuitBreaker) allowCall() bool` (levee_impl.go).
Reads the historical (mid-horizon) error and concurrency means and caps
admission at `(1 - hErrors) * hConcurrency`. -/
def CircuitBreaker.allowCall (cb : CircuitBreaker) : Bool :=
  let hErrors := cb.metrics.errors.MeanMid
  let hConcurrency := cb.metrics.concurrency.MeanMid
  let allowedConcurrency : ℚ :=
    if hErrors = 0 ∨ hConcurrency = 0 then 1 else (1 - hErrors) * hConcurrency
  if (cb.concurrents : ℚ) > allowedConcurrency then false else true

/-- Go: `func (cb *CircuitBreaker) newState() State` (levee_impl.go).
Note the source substitutes `0.1` for `hErrors` only when `hErrors == 0`
exactly. -/
def CircuitBreaker.newState (cb : CircuitBreaker) : State :=
  if cb.state ≠ HALF_OPEN then cb.state
  else if cb.metrics.errors.Mean > 1 - cb.revised_slo.SuccessRate then OPEN
  else
    let hErrors := cb.metrics.errors.MeanMid
    let hErrors := if hErrors = 0 then 1 / 10 else hErrors
    if cb.metrics.errors.FillRate * (cb.metrics.errors._size : ℚ) > 1 / hErrors
    then CLOSED
    else HALF_OPEN

/-- The weight-3 condition of `mustOpen` (levee_impl.go):
`success_rate < cb.revised_slo.SuccessRate` with
`success_rate = 1 - cb.metrics.errors.Mean()`. -/
def CircuitBreaker.successRateBreach (cb : CircuitBreaker) : Prop :=
  1 - cb.metrics.errors.Mean < cb.revised_slo.SuccessRate

/-- The latency-anomaly condition of `mustOpen` (levee_impl.go). -/
def CircuitBreaker.latencyAnomaly (cb : CircuitBreaker) : Prop :=
  cb.metrics.latency.Deviation > 10 * cb.metrics.latency.DeviationMid ∨
  cb.metrics.latency.Deviation > 5 * cb.metrics.latency.DeviationLong

/-- The concurrency-anomaly condition of `mustOpen` (levee_impl.go). -/
def CircuitBreaker.concurrencyAnomaly (cb : CircuitBreaker) : Prop :=
  cb.metrics.concurrency.Deviation > 10 * cb.metrics.concurrency.DeviationMid ∨
  cb.metrics.concurrency.Deviation > 5 * cb.metrics.concurrency.DeviationLong

/-- The RPS-anomaly condition of `mustOpen` (levee_impl.go), with
`rps = cb.metrics.requests.Derivative()` in its exact-rational reading. -/
def CircuitBreaker.rpsAnomaly (cb : CircuitBreaker) : Prop :=
  cb.metrics.requests.DerivativeQ > 10 * cb.metrics.requests.DerivativeMid ∨
  cb.metrics.requests.DerivativeQ > 5 * cb.metrics.requests.DerivativeLong

instance (cb : CircuitBreaker) : Decidable cb.successRateBreach :=
  inferInstanceAs (Decidable (_ < _))

instance (cb : CircuitBreaker) : Decidable cb.latencyAnomaly :=
  inferInstanceAs (Decidable (_ ∨ _))

instance (cb : CircuitBreaker) : Decidable cb.concurrencyAnomaly :=
  inferInstanceAs (Decidable (_ ∨ _))

instance (cb : CircuitBreaker) : Decidable cb.rpsAnomaly :=
  inferInstanceAs (Decidable (_ ∨ _))

/-- Go: `func (cb *CircuitBreaker) mustOpen() bool` (levee_impl.go):
tally a health score (success-rate breach weighs 3, each anomaly weighs 1)
and open at `health >= 3`. -/
def CircuitBreaker.mustOpen (cb : CircuitBreaker) : Bool :=
  let health : ℕ := 0
  let health := if cb.successRateBreach then health + 3 else health
  let health := if cb.latencyAnomaly then health + 1 else health
  let health := if cb.concurrencyAnomaly then health + 1 else health
  let health := if cb.rpsAnomaly then health + 1 else health
  decide (3 ≤ health)

/-- Go: `func (cb *CircuitBreaker) OpenCircuit() (State, error)`
(levee_impl.go); `time.Now()` is the explicit `now`. -/
def CircuitBreaker.OpenCircuit (cb : CircuitBreaker) (now : ℤ) :
    State × Option CBError × CircuitBreaker :=
  let cb := { cb with metrics := cb.metrics.Reset, state := OPEN,
                      lastOpenAt := now }
  (cb.state, none, cb)

/-- Go: `func (cb *CircuitBreaker) CloseCircuit() (State, error)`
(levee_impl.go). -/
def CircuitBreaker.CloseCircuit (cb : CircuitBreaker) :
    State × Option CBError × CircuitBreaker :=
  let cb := { cb with metrics := cb.metrics.Reset, state := CLOSED }
  (cb.state, none, cb)

/-- Result of `CircuitBreaker.Call`: the returned `(State, error)` pair,
the breaker state after the call, and whether `f` was invoked. -/
structure CallResult where
  state : State
  err : Option CBError
  cb : CircuitBreaker
  invoked : Bool
deriving DecidableEq

/-- Go (levee_impl.go, `Call`): `cb.AddConcurrent()`. -/
def CircuitBreaker.bump (cb : CircuitBreaker) : CircuitBreaker :=
  { cb with concurrents := cb.concurrents + 1 }

/-- Go (levee_impl.go, `Call`): the deferred `cb.RemoveConcurrent()`,
applied on every return path after the bump. -/
def CircuitBreaker.unbump (cb : CircuitBreaker) : CircuitBreaker :=
  { cb with concurrents := cb.concurrents - 1 }

/-- Go (levee_impl.go, `Call`): the pre-call recording block —
`RecordConcurrency(float64(cb.Concurrents()), start)` (the counter after
the bump) and `RecordRequests(1, start)`. -/
def CircuitBreaker.recordPre (cb : CircuitBreaker) (start : ℤ) :
    CircuitBreaker :=
  let m := cb.metrics.RecordConcurrency (cb.concurrents : ℚ) start
  let m := m.RecordRequests 1 start
  { cb with metrics := m }

/-- Go (levee_impl.go, `Call`): the post-call recording block —
`RecordLatency(float64(end.Sub(start).Microseconds()), end)` and
`RecordErrors(1 or 0, end)` depending on `call_err`. -/
def CircuitBreaker.recordPost (cb : CircuitBreaker) (start endT : ℤ)
    (fErr : Option ℕ) : CircuitBreaker :=
  let m := cb.metrics.RecordLatency ((endT - start : ℤ) : ℚ) endT
  let m := match fErr with
    | some _ => m.RecordErrors 1 endT
    | none => m.RecordErrors 0 endT
  { cb with metrics := m }

/-- Go (levee_impl.go, `Call`): everything after the OPEN-handling block,
entered with the state snapshot `state` (CLOSED, HALF_OPEN after a
cooldown transition, or INIT under the warm-up front-end). -/
def CircuitBreaker.callBody (cb : CircuitBreaker) (state : State)
    (start endT : ℤ) (fErr : Option ℕ) : CallResult :=
  let cb := cb.bump
  if state = HALF_OPEN ∧ cb.allowCall = false then
    { state := state, err := some CBError.ErrCircuitHalfOpen,
      cb := cb.unbump, invoked := false }
  else if state = CLOSED ∧ cb.mustOpen = true then
    let r := cb.OpenCircuit start
    { state := r.1, err := r.2.1, cb := r.2.2.unbump, invoked := false }
  else
    let cb := cb.recordPre start
    -- `f` is invoked here; its outcome is `fErr`
    let cb := cb.recordPost start endT fErr
    if state = HALF_OPEN then
      match cb.newState with
      | OPEN =>
          let r := cb.OpenCircuit endT
          { state := r.1, err := r.2.1, cb := r.2.2.unbump, invoked := true }
      | CLOSED =>
          let r := cb.CloseCircuit
          { state := r.1, err := r.2.1, cb := r.2.2.unbump, invoked := true }
      | _ =>
          { state := state, err := fErr.map CBError.user, cb := cb.unbump,
            invoked := true }
    else
      { state := state, err := none, cb := cb.unbump, invoked := true }

/-- Go: `func (cb *CircuitBreaker) Call(f func() error) (State, error)`
(levee_impl.go).  `start` models the `time.Now()` at entry (also used for
`time.Since(lastOpenAt)`), `endT` the one taken after `f` returns. -/
def CircuitBreaker.Call (cb : CircuitBreaker) (start endT : ℤ)
    (fErr : Option ℕ) : CallResult :=
  let state := cb.state
  if state = OPEN then
    if start - cb.lastOpenAt < cb.revised_slo.Timeout then
      { state := state, err := some CBError.ErrCircuitOpen, cb := cb,
        invoked := false }
    else
      ({ cb with state := HALF_OPEN }).callBody HALF_OPEN start endT fErr
  else
    cb.callBody state start endT fErr

/-- Go: `type WarmupCB struct` (levee_impl.go): embeds a `*CircuitBreaker`
plus the warm-up bookkeeping. -/
structure WarmupCB where
  cb : CircuitBreaker
  reqCount : ℕ
  startT : ℤ
  endT : ℤ
deriving DecidableEq

/-- Go: `func NewWarmupCB(slo SLO) *WarmupCB` (levee_impl.go): a size-100
breaker forced to INIT, with `start := time.Now()` (the explicit `now`). -/
def NewWarmupCB (slo : SLO) (now : ℤ) : WarmupCB :=
  { cb := { NewCircuitBreaker slo 100 with state := INIT },
    reqCount := 0, startT := now, endT := 0 }

/-- Go: `func (cb *WarmupCB) Call(f func() error) (State, error)`
(levee_impl.go): delegate to the inner breaker (discarding its state
result), then count post-warm-up requests and promote to CLOSED after
1000 of them. -/
def WarmupCB.Call (wu : WarmupCB) (now endT : ℤ) (fErr : Option ℕ) :
    State × Option CBError × WarmupCB :=
  let inner := wu.cb.Call now endT fErr
  let wu := { wu with cb := inner.cb }
  let wu := if now - wu.startT > wu.cb.stated_slo.Warmup then
              { wu with reqCount := wu.reqCount + 1 }
            else wu
  let wu := if wu.reqCount > 1000 then
              { wu with endT := now, cb := { wu.cb with state := CLOSED } }
            else wu
  (wu.cb.state, inner.err, wu)

/-- The dynamic type behind the façade's `cb ICircuitBreaker` field
(levee.go): either the warm-up front-end or the promoted adaptive
breaker. -/
inductive Breaker where
  | warmup (wu : WarmupCB)
  | adaptive (cb : CircuitBreaker)
deriving DecidableEq

/-- Go: `type Levee struct` (levee.go); the `state chan State` field is
channel plumbing with no sequential semantics and is dropped. -/
structure Levee where
  ready : Bool
  cb : Breaker
deriving DecidableEq

/-- Go: `func NewLevee(slo SLO) *Levee` (levee.go). -/
def NewLevee (slo : SLO) (now : ℤ) : Levee :=
  { ready := false, cb := Breaker.warmup (NewWarmupCB slo now) }

/-- Go: `func (l *Levee) State() State` (levee.go): `l.cb.State()` of the
active breaker.  (Named `CurState` because `State` is the enum type.) -/
def Levee.CurState (l : Levee) : State :=
  match l.cb with
  | Breaker.warmup wu => wu.cb.state
  | Breaker.adaptive cb => cb.state

/-- Go: `func (l *Levee) Call(f func() error) (State, error)` (levee.go).
On the not-ready path the source type-asserts `l.cb.(*WarmupCB)`; a
non-warm-up breaker there would panic (modelled as `none`; unreachable in
the façade's lifecycle).  Promotion sizing: `rps` from post-warm-up
throughput (durations in seconds), floored by `100` and by
`10/(1-success_rate)`, capped at `65535`, truncated to `uint16`. -/
def Levee.Call (l : Levee) (now endT : ℤ) (fErr : Option ℕ) :
    Option (State × Option CBError × Levee) :=
  if l.ready = false then
    match l.cb with
    | Breaker.warmup wu =>
        let r := wu.Call now endT fErr
        let s := r.1
        let wu := r.2.2
        if s = CLOSED then
          let rps := (wu.reqCount : ℚ) /
            (((wu.endT - wu.startT : ℤ) : ℚ) / 1000000 -
              (wu.cb.stated_slo.Warmup : ℚ) / 1000000)
          let sloBasedSamples := 10 / (1 - wu.cb.stated_slo.SuccessRate)
          let rps := max (max rps 100) sloBasedSamples
          let rps := min rps (2 ^ 16 - 1)
          some (s, r.2.1,
            { ready := true,
              cb := Breaker.adaptive
                (NewCircuitBreaker wu.cb.stated_slo ⌊rps⌋.toNat) })
        else some (s, r.2.1, { l with cb := Breaker.warmup wu })
    | Breaker.adaptive _ => none
  else
    match l.cb with
    | Breaker.warmup wu =>
        let r := wu.Call now endT fErr
        some (r.1, r.2.1, { l with cb := Breaker.warmup r.2.2 })
    | Breaker.adaptive cb =>
        let r := cb.Call now endT fErr
        some (r.state, r.err, { l with cb := Breaker.adaptive r.cb })

/-- Go: `func (l *Levee) Expunge()` (levee.go):
`l.ready = false; l.cb = NewWarmupCB(l.cb.(*WarmupCB).stated_slo)`.
The type assertion panics when the active breaker is the promoted
`*CircuitBreaker`; the panic is modelled as `none`. -/
def Levee.Expunge (l : Levee) (now : ℤ) : Option Levee :=
  match l.cb with
  | Breaker.warmup wu =>
      some { ready := false,
             cb := Breaker.warmup (NewWarmupCB wu.cb.stated_slo now) }
  | Breaker.adaptive _ => none

/-! ### Spec-side definitions and concrete fixtures -/

/-- The admitted-call path of `Call` after the gates: `AddConcurrent`,
the pre-call records at `start`, then the post-call records at `endT`
(the state used by the HALF_OPEN outcome decision). -/
def CircuitBreaker.afterRecords (cb : CircuitBreaker) (start endT : ℤ)
    (fErr : Option ℕ) : CircuitBreaker :=
  ((cb.bump).recordPre start).recordPost start endT fErr

/-- The spec's wording of the HALF_OPEN → CLOSED condition of `new_state`:
`errors.fill_rate() · size > 1 / max(errors.mean_mid(), 0.1)`.  (The source
substitutes `0.1` only when `mean_mid` is exactly `0`; this definition is
the spec's version, for comparison.) -/
def specCloseCondition (cb : CircuitBreaker) : Prop :=
  cb.metrics.errors.FillRate * (cb.metrics.errors._size : ℚ) >
    1 / max cb.metrics.errors.MeanMid (1 / 10)

/-- A sample SLO used by the concrete fixtures: success rate 0.9, OPEN
cooldown 10 µs, warm-up 1 s. -/
def sloA : SLO := { SuccessRate := 9 / 10, Timeout := 10, Warmup := 1000000 }

/-- A freshly constructed (CLOSED, empty-metrics) breaker. -/
def cbFresh : CircuitBreaker := NewCircuitBreaker sloA 100

/-- A breaker sitting in OPEN state since time 0. -/
def cbOpen : CircuitBreaker :=
  { NewCircuitBreaker sloA 100 with state := OPEN, lastOpenAt := 0 }

/-- A fresh breaker moved to HALF_OPEN (all metrics still empty). -/
def cbHalfFresh : CircuitBreaker :=
  { NewCircuitBreaker sloA 100 with state := HALF_OPEN }

/-- An errors TimeSeries in a HALF_OPEN probe phase: one flushed batch left
`mean_mid = 0.05`, and 15 of 20 probe slots are filled with successes. -/
def tsErrProbe : TimeSeries :=
  { zeroTS with values := List.replicate 15 0, cap := 20, _size := 20,
                value := some { base := 1/20, ewmaLo := 1/20, ewmaHi := 1/20 } }

/-- A HALF_OPEN breaker whose errors series is `tsErrProbe`
(`mean_mid = 0.05`, strictly between 0 and 0.1). -/
def cbHalfProbe : CircuitBreaker :=
  { NewCircuitBreaker sloA 20 with
      state := HALF_OPEN,
      metrics := { newMetrics 20 with errors := tsErrProbe } }

/-- An empty TimeSeries with buffer capacity (and `_size`) `n`, as
`newMetrics` builds them. -/
def mkSeries (n : ℕ) : TimeSeries := { zeroTS with cap := n, _size := n }

/-- A façade that has been promoted to the adaptive breaker
(`ready = true`, dynamic type `*CircuitBreaker`). -/
def leveePromoted : Levee :=
  { ready := true, cb := Breaker.adaptive (NewCircuitBreaker sloA 100) }

/-- A façade still in the warm-up phase. -/
def leveeWarm : Levee := NewLevee sloA 0

/-! ## Theorems

### Binary64 rounding model: correctness lemmas -/

theorem nlog2_spec : ∀ (f n : ℕ), 1 ≤ n → n ≤ f →
    2 ^ (nlog2 f n) ≤ n ∧ n < 2 ^ (nlog2 f n + 1) := by
  intro f
  induction f with
  | zero => intro n h1 h2; omega
  | succ f ih =>
      intro n h1 h2
      by_cases hn : n < 2
      · have : n = 1 := by omega
        subst this
        simp [nlog2]
      · have hm1 : 1 ≤ n / 2 := by omega
        have hm2 : n / 2 ≤ f := by omega
        obtain ⟨ha, hb⟩ := ih (n / 2) hm1 hm2
        have hrw : nlog2 (f + 1) n = nlog2 f (n / 2) + 1 := by
          simp [nlog2, hn]
        rw [hrw]
        constructor
        · have : 2 ^ (nlog2 f (n / 2) + 1) = 2 * 2 ^ (nlog2 f (n / 2)) := by ring
          rw [this]; omega
        · have : 2 ^ (nlog2 f (n / 2) + 1 + 1) = 2 * 2 ^ (nlog2 f (n / 2) + 1) := by ring
          rw [this]; omega

theorem nclog2_spec : ∀ (f n : ℕ), 1 ≤ n → n ≤ f →
    n ≤ 2 ^ (nclog2 f n) ∧ (2 ≤ n → 2 ^ (nclog2 f n - 1) < n) := by
  intro f
  induction f with
  | zero => intro n h1 h2; omega
  | succ f ih =>
      intro n h1 h2
      by_cases hn : n ≤ 1
      · have : n = 1 := by omega
        subst this
        simp [nclog2]
      · have hm1 : 1 ≤ (n + 1) / 2 := by omega
        have hm2 : (n + 1) / 2 ≤ f := by omega
        obtain ⟨ha, hb⟩ := ih ((n + 1) / 2) hm1 hm2
        have hrw : nclog2 (f + 1) n = nclog2 f ((n + 1) / 2) + 1 := by
          simp [nclog2, hn]
        rw [hrw]
        constructor
        · have : 2 ^ (nclog2 f ((n + 1) / 2) + 1) = 2 * 2 ^ (nclog2 f ((n + 1) / 2)) := by ring
          omega
        · intro _
          by_cases hc : 2 ≤ (n + 1) / 2
          · have := hb hc
            have h2c : 2 ^ (nclog2 f ((n + 1) / 2) - 1 + 1) = 2 * 2 ^ (nclog2 f ((n + 1) / 2) - 1) := by ring
            have hcpos : 1 ≤ nclog2 f ((n + 1) / 2) := by
              by_contra hcc
              have : nclog2 f ((n + 1) / 2) = 0 := by omega
              rw [this] at ha
              omega
            have hsub : nclog2 f ((n + 1) / 2) + 1 - 1 = (nclog2 f ((n + 1) / 2) - 1) + 1 := by omega
            rw [hsub, h2c]
            omega
          · have : (n + 1) / 2 = 1 := by omega
            have hn2 : n = 2 := by omega
            rw [this] at *
            have : nclog2 f 1 = 0 := by
              cases f with
              | zero => simp [nclog2]
              | succ f => simp [nclog2]
            rw [this]
            simp
            omega

theorem floorLog2_spec (q : ℚ) (hq : 0 < q) :
    (2 : ℚ) ^ (floorLog2 q) ≤ q ∧ q < 2 ^ (floorLog2 q + 1) := by
  by_cases h1 : 1 ≤ q
  · have hfl : (1 : ℤ) ≤ ⌊q⌋ := Int.le_floor.2 (by exact_mod_cast h1)
    set N := ⌊q⌋.toNat with hN
    have hNval : (N : ℤ) = ⌊q⌋ := Int.toNat_of_nonneg (by omega)
    have hNQ : (N : ℚ) = ((⌊q⌋ : ℤ) : ℚ) := by rw [← hNval]; norm_cast
    have hN1 : 1 ≤ N := by omega
    obtain ⟨ha, hb⟩ := nlog2_spec N N hN1 le_rfl
    set k := nlog2 N N with hk
    have hfl2 : floorLog2 q = (k : ℤ) := by
      simp [floorLog2, h1, hN, hk]
    have hfloor_le : ((⌊q⌋ : ℤ) : ℚ) ≤ q := Int.floor_le q
    have hlt : q < ((⌊q⌋ : ℤ) : ℚ) + 1 := Int.lt_floor_add_one q
    have hca : ((2 : ℚ) ^ (k : ℕ)) ≤ (N : ℚ) := by exact_mod_cast ha
    have hcb : (N : ℚ) + 1 ≤ (2 : ℚ) ^ ((k : ℕ) + 1) := by
      exact_mod_cast (show N + 1 ≤ 2 ^ (k + 1) by omega)
    have hz1 : (2 : ℚ) ^ ((k : ℕ) : ℤ) = (2 : ℚ) ^ (k : ℕ) := zpow_natCast 2 k
    have hz2 : (2 : ℚ) ^ (((k : ℕ) : ℤ) + 1) = (2 : ℚ) ^ ((k : ℕ) + 1) := by
      rw [show (((k : ℕ) : ℤ) + 1) = (((k + 1 : ℕ) : ℕ) : ℤ) by push_cast; ring,
        zpow_natCast]
    rw [hfl2]
    constructor
    · rw [hz1]; linarith
    · rw [hz2]; linarith
  · push_neg at h1
    have hqinv : 1 < q⁻¹ := one_lt_inv_iff₀.2 ⟨hq, h1⟩
    have hcl : (2 : ℤ) ≤ ⌈q⁻¹⌉ := by
      have := Int.lt_ceil.2 (show ((1 : ℤ) : ℚ) < q⁻¹ by exact_mod_cast hqinv)
      omega
    set M := ⌈q⁻¹⌉.toNat with hM
    have hMval : (M : ℤ) = ⌈q⁻¹⌉ := Int.toNat_of_nonneg (by omega)
    have hMQ : (M : ℚ) = ((⌈q⁻¹⌉ : ℤ) : ℚ) := by rw [← hMval]; norm_cast
    have hM2 : 2 ≤ M := by omega
    obtain ⟨ha, hb⟩ := nclog2_spec M M (by omega) le_rfl
    have hb2 := hb hM2
    set c := nclog2 M M with hc
    have hcpos : 1 ≤ c := by
      by_contra hcc
      have : c = 0 := by omega
      rw [this] at ha; omega
    have hfl2 : floorLog2 q = -(c : ℤ) := by
      simp [floorLog2, not_le.2 h1, hM, hc]
    have hceil_ge : q⁻¹ ≤ ((⌈q⁻¹⌉ : ℤ) : ℚ) := Int.le_ceil _
    have hceil_lt : ((⌈q⁻¹⌉ : ℤ) : ℚ) < q⁻¹ + 1 := Int.ceil_lt_add_one _
    have hca : (M : ℚ) ≤ (2 : ℚ) ^ (c : ℕ) := by exact_mod_cast ha
    have hcb : (2 : ℚ) ^ ((c - 1 : ℕ) : ℕ) + 1 ≤ (M : ℚ) := by
      exact_mod_cast (show 2 ^ (c - 1) + 1 ≤ M by omega)
    have hApos : (0 : ℚ) < (2 : ℚ) ^ (c : ℕ) := by positivity
    have hBpos : (0 : ℚ) < (2 : ℚ) ^ ((c - 1 : ℕ) : ℕ) := by positivity
    have hinv_le : q⁻¹ ≤ (2 : ℚ) ^ (c : ℕ) := by
      have h5 : q⁻¹ ≤ (M : ℚ) := by rw [hMQ]; exact hceil_ge
      linarith
    have hinv_gt : (2 : ℚ) ^ ((c - 1 : ℕ) : ℕ) < q⁻¹ := by
      have h5 : (M : ℚ) - 1 < q⁻¹ := by rw [hMQ]; linarith
      linarith
    rw [hfl2]
    have hz1 : (2 : ℚ) ^ (-(c : ℤ)) = ((2 : ℚ) ^ (c : ℕ))⁻¹ := by
      rw [zpow_neg, zpow_natCast]
    have hz2 : (2 : ℚ) ^ (-(c : ℤ) + 1) = ((2 : ℚ) ^ ((c - 1 : ℕ) : ℕ))⁻¹ := by
      rw [show (-(c : ℤ) + 1) = -(((c - 1 : ℕ) : ℕ) : ℤ) by omega, zpow_neg, zpow_natCast]
    constructor
    · rw [hz1, inv_eq_one_div, div_le_iff₀ hApos]
      have h4 : 1 / q ≤ (2 : ℚ) ^ (c : ℕ) := by rw [one_div]; exact hinv_le
      rw [div_le_iff₀ hq] at h4
      nlinarith
    · rw [hz2, inv_eq_one_div, lt_div_iff₀ hBpos]
      have h4 : (2 : ℚ) ^ ((c - 1 : ℕ) : ℕ) < 1 / q := by rw [one_div]; exact hinv_gt
      rw [lt_div_iff₀ hq] at h4
      nlinarith

theorem nearestInt_abs_le (x : ℚ) : |(nearestInt x : ℚ) - x| ≤ 1 / 2 := by
  unfold nearestInt
  have h1 : ((⌊x⌋ : ℤ) : ℚ) ≤ x := Int.floor_le x
  have h2 : x < ((⌊x⌋ : ℤ) : ℚ) + 1 := Int.lt_floor_add_one x
  by_cases hlt : x - ((⌊x⌋ : ℤ) : ℚ) < 1 / 2
  · simp only [hlt, if_true]
    rw [abs_le]; constructor <;> linarith
  · by_cases hgt : 1 / 2 < x - ((⌊x⌋ : ℤ) : ℚ)
    · simp only [hlt, hgt, if_false, if_true]
      push_cast
      rw [abs_le]; constructor <;> linarith
    · by_cases hev : Even ⌊x⌋
      · simp only [hlt, hgt, hev, if_false, if_true]
        rw [abs_le]; constructor <;> linarith
      · simp only [hlt, hgt, hev, if_false]
        push_cast
        rw [abs_le]; constructor <;> linarith

theorem nearestInt_eq_of (x : ℚ) (K : ℤ) (h : |x - (K : ℚ)| < 1 / 2) :
    nearestInt x = K := by
  rw [abs_lt] at h
  obtain ⟨hlo, hhi⟩ := h
  unfold nearestInt
  by_cases hK : (K : ℚ) ≤ x
  · have hfl : ⌊x⌋ = K := by
      rw [Int.floor_eq_iff]
      constructor
      · exact_mod_cast hK
      · push_cast; linarith
    rw [hfl]
    have : x - (K : ℚ) < 1 / 2 := by linarith
    simp only [this, if_true]
  · push_neg at hK
    have hfl : ⌊x⌋ = K - 1 := by
      rw [Int.floor_eq_iff]
      constructor
      · push_cast; linarith
      · push_cast; linarith
    rw [hfl]
    have hc1 : ¬ (x - ((K - 1 : ℤ) : ℚ) < 1 / 2) := by push_cast; push_neg; linarith
    have hc2 : 1 / 2 < x - ((K - 1 : ℤ) : ℚ) := by push_cast; linarith
    simp only [hc1, hc2, if_false, if_true]
    omega

theorem fpRound_err (q : ℚ) : |fpRound q - q| ≤ 2 ^ (eExp q) / 2 := by
  unfold fpRound
  set e := eExp q with he
  set m := q * 2 ^ (-e) with hm
  have hpow : (0 : ℚ) < 2 ^ e := by positivity
  have hqm : q = m * 2 ^ e := by
    rw [hm, mul_assoc, ← zpow_add₀ (by norm_num : (2:ℚ) ≠ 0)]
    simp
  have h1 : |(nearestInt m : ℚ) - m| ≤ 1 / 2 := nearestInt_abs_le m
  calc |(nearestInt m : ℚ) * 2 ^ e - q| = |((nearestInt m : ℚ) - m) * 2 ^ e| := by
        rw [hqm]; ring_nf
    _ = |(nearestInt m : ℚ) - m| * |(2:ℚ) ^ e| := abs_mul _ _
    _ = |(nearestInt m : ℚ) - m| * 2 ^ e := by rw [abs_of_pos hpow]
    _ ≤ (1 / 2) * 2 ^ e := by
        apply mul_le_mul_of_nonneg_right h1 (le_of_lt hpow)
    _ = 2 ^ e / 2 := by ring

theorem fpRound_exact (q : ℚ) (K : ℤ) (h : |q - (K : ℚ) * 2 ^ (eExp q)| < 2 ^ (eExp q) / 2) :
    fpRound q = (K : ℚ) * 2 ^ (eExp q) := by
  unfold fpRound
  set e := eExp q with he
  have hpow : (0 : ℚ) < 2 ^ e := by positivity
  have hpow' : (0 : ℚ) < 2 ^ (-e) := by positivity
  have hone : (2 : ℚ) ^ e * 2 ^ (-e) = 1 := by
    rw [← zpow_add₀ (by norm_num : (2:ℚ) ≠ 0)]; simp
  have hkey : |q * 2 ^ (-e) - (K : ℚ)| < 1 / 2 := by
    have h2 : |q - (K : ℚ) * 2 ^ e| * 2 ^ (-e) < (2 ^ e / 2) * 2 ^ (-e) :=
      mul_lt_mul_of_pos_right h hpow'
    have hmul : (q - (K : ℚ) * 2 ^ e) * 2 ^ (-e) = q * 2 ^ (-e) - (K : ℚ) := by
      rw [sub_mul, mul_assoc, hone]
      ring
    have h3 : |q - (K : ℚ) * 2 ^ e| * 2 ^ (-e) = |q * 2 ^ (-e) - (K : ℚ)| := by
      rw [← hmul, abs_mul, abs_of_pos hpow']
    have h4 : (2 ^ e / 2) * 2 ^ (-e) = (1 : ℚ) / 2 := by
      have h5 : (2 : ℚ) ^ e / 2 * 2 ^ (-e) = (2 ^ e * 2 ^ (-e)) / 2 := by ring
      rw [h5, hone]
    rw [h3, h4] at h2
    exact h2
  rw [nearestInt_eq_of _ K hkey]

theorem ceil_inv99 : ⌈((99 : ℚ) / 100)⁻¹⌉ = 2 := by
  rw [Int.ceil_eq_iff]
  norm_num

theorem floorLog2_99 : floorLog2 (99 / 100) = -1 := by
  rw [floorLog2, if_neg (by norm_num), ceil_inv99]
  have h : nclog2 (Int.toNat 2) (Int.toNat 2) = 1 := by
    have : Int.toNat 2 = 2 := rfl
    rw [this]
    simp [nclog2]
  rw [h]
  norm_num

theorem fp099_eq : fp099 = 8917127262193582 / 2 ^ 53 := by
  rw [fp099, fpRound, eExp, floorLog2_99]
  rw [show nearestInt ((99 : ℚ) / 100 * 2 ^ (-(-1 - 52 : ℤ))) = 8917127262193582 from
    nearestInt_eq_of _ _ (by rw [abs_lt]; constructor <;> norm_num)]
  norm_num

theorem fp099_bounds : (49 : ℚ) / 50 ≤ fp099 ∧ fp099 ≤ 99 / 100 := by
  rw [fp099_eq]; constructor <;> norm_num

theorem fp099_delta : (99 : ℚ) / 100 - fp099 = 8 / (100 * 2 ^ 53) := by
  rw [fp099_eq]; norm_num

theorem zpow_neg53 : (2 : ℚ) ^ (-(53 : ℤ)) = 1 / 2 ^ 53 := by
  rw [zpow_neg]
  norm_num

theorem fp099_pos : (0 : ℚ) < fp099 := by
  rw [fp099_eq]; norm_num

theorem prodBounds (n : ℕ) (h1 : 1 ≤ n) :
    (49 / 50 : ℚ) * n ≤ (n : ℚ) * fp099 ∧ (n : ℚ) * fp099 ≤ (99 / 100 : ℚ) * n := by
  obtain ⟨hlo, hhi⟩ := fp099_bounds
  have hn0 : (0 : ℚ) ≤ (n : ℚ) := by positivity
  constructor
  · calc (49 / 50 : ℚ) * n = (n : ℚ) * (49 / 50) := by ring
      _ ≤ (n : ℚ) * fp099 := mul_le_mul_of_nonneg_left hlo hn0
  · calc (n : ℚ) * fp099 ≤ (n : ℚ) * (99 / 100) := mul_le_mul_of_nonneg_left hhi hn0
      _ = (99 / 100 : ℚ) * n := by ring

theorem i99_err (n : ℕ) (h1 : 1 ≤ n) (h2 : n ≤ 65535) :
    |fpRound ((n : ℚ) * fp099) - (99 * n : ℚ) / 100| < 1 / 100 := by
  obtain ⟨hq_lo, hq_hi⟩ := prodBounds n h1
  set q : ℚ := (n : ℚ) * fp099 with hqdef
  have hn_pos : (0 : ℚ) < (n : ℚ) := by exact_mod_cast h1
  have hn_le : (n : ℚ) ≤ 65535 := by exact_mod_cast h2
  have hq_pos : 0 < q := by
    have := fp099_pos
    rw [hqdef]; positivity
  obtain ⟨hL1, hL2⟩ := floorLog2_spec q hq_pos
  set L := floorLog2 q with hLdef
  have h2ne : (2 : ℚ) ≠ 0 := by norm_num
  have heexp : eExp q = L - 52 := rfl
  have hsplit : (2 : ℚ) ^ (L - 52) / 2 = (2 : ℚ) ^ L * 2 ^ (-(53 : ℤ)) := by
    rw [← zpow_add₀ h2ne]
    rw [show (L + -(53 : ℤ)) = (L - 52) + -1 by ring, zpow_add₀ h2ne]
    norm_num
    ring
  have h53pos : (0 : ℚ) ≤ 1 / 2 ^ 53 := by norm_num
  -- rounding error ≤ 2^L · 2^-53 ≤ q · 2^-53 ≤ 0.99 n · 2^-53
  have erra : |fpRound q - q| ≤ (99 / 100 : ℚ) * n * (1 / 2 ^ 53) := by
    have e0 := fpRound_err q
    rw [heexp, hsplit, zpow_neg53] at e0
    have e1 : (2 : ℚ) ^ L * (1 / 2 ^ 53) ≤ q * (1 / 2 ^ 53) :=
      mul_le_mul_of_nonneg_right hL1 h53pos
    have e2 : q * (1 / 2 ^ 53 : ℚ) ≤ (99 / 100 : ℚ) * n * (1 / 2 ^ 53) :=
      mul_le_mul_of_nonneg_right hq_hi h53pos
    linarith
  -- representation error of 0.99: |q - 0.99 n| = n · 8/(100·2^53)
  have errb : |q - (99 * n : ℚ) / 100| = (n : ℚ) * (8 / (100 * 2 ^ 53)) := by
    have e0 : (99 * n : ℚ) / 100 - q = (n : ℚ) * ((99 : ℚ) / 100 - fp099) := by
      rw [hqdef]; ring
    rw [abs_sub_comm, e0, fp099_delta, abs_of_nonneg (by positivity)]
  have errb' : |q - (99 * n : ℚ) / 100| ≤ 65535 * (8 / (100 * 2 ^ 53)) := by
    rw [errb]
    have h8 : (0 : ℚ) ≤ 8 / (100 * 2 ^ 53) := by norm_num
    exact mul_le_mul_of_nonneg_right hn_le h8
  have erra' : |fpRound q - q| ≤ (99 / 100 : ℚ) * 65535 * (1 / 2 ^ 53) := by
    have e2 : (99 / 100 : ℚ) * n * (1 / 2 ^ 53) ≤ (99 / 100 : ℚ) * 65535 * (1 / 2 ^ 53) := by
      have : (99 / 100 : ℚ) * n ≤ (99 / 100 : ℚ) * 65535 :=
        mul_le_mul_of_nonneg_left hn_le (by norm_num)
      exact mul_le_mul_of_nonneg_right this h53pos
    linarith
  have htri := abs_sub_le (fpRound q) q ((99 * n : ℚ) / 100)
  have hfin : (99 / 100 : ℚ) * 65535 * (1 / 2 ^ 53) + 65535 * (8 / (100 * 2 ^ 53)) < 1 / 100 := by
    norm_num
  linarith

theorem i99_exact (n : ℕ) (h1 : 1 ≤ n) (h2 : n ≤ 65535) (hr : 99 * n % 100 = 0) :
    fpRound ((n : ℚ) * fp099) = ((99 * n / 100 : ℕ) : ℚ) := by
  obtain ⟨hq_lo, hq_hi⟩ := prodBounds n h1
  set q : ℚ := (n : ℚ) * fp099 with hqdef
  have hn_pos : (0 : ℚ) < (n : ℚ) := by exact_mod_cast h1
  have hn_le : (n : ℚ) ≤ 65535 := by exact_mod_cast h2
  have hq_pos : 0 < q := by
    have := fp099_pos
    rw [hqdef]; positivity
  obtain ⟨hL1, hL2⟩ := floorLog2_spec q hq_pos
  set L := floorLog2 q with hLdef
  have h2ne : (2 : ℚ) ≠ 0 := by norm_num
  have heexp : eExp q = L - 52 := rfl
  have hsplit : (2 : ℚ) ^ (L - 52) / 2 = (2 : ℚ) ^ L * 2 ^ (-(53 : ℤ)) := by
    rw [← zpow_add₀ h2ne]
    rw [show (L + -(53 : ℤ)) = (L - 52) + -1 by ring, zpow_add₀ h2ne]
    norm_num
    ring
  set k := 99 * n / 100 with hkdef
  have heq : 99 * n = 100 * k := by omega
  have hqk : (99 * n : ℚ) / 100 = (k : ℚ) := by
    have hcast : ((99 * n : ℕ) : ℚ) = ((100 * k : ℕ) : ℚ) := by exact_mod_cast heq
    push_cast at hcast
    linarith
  have hL2' : q < 2 * 2 ^ L := by
    have e0 : (2 : ℚ) ^ (L + 1) = 2 ^ L * 2 := zpow_add_one₀ h2ne L
    rw [e0] at hL2
    linarith
  -- L ≤ 52, so k sits on the rounding grid around q
  have hL52 : L ≤ 52 := by
    by_contra hc
    push_neg at hc
    have h53L : (53 : ℤ) ≤ L := by omega
    have h2b : (2 : ℚ) ^ (53 : ℤ) ≤ 2 ^ L := zpow_le_zpow_right₀ (by norm_num) h53L
    have h2c : ((99 : ℚ) / 100) * 65535 < 2 ^ (53 : ℤ) := by norm_num
    have h2d : q ≤ (99 / 100 : ℚ) * 65535 := by
      have : (99 / 100 : ℚ) * n ≤ (99 / 100 : ℚ) * 65535 :=
        mul_le_mul_of_nonneg_left hn_le (by norm_num)
      linarith
    linarith
  set K : ℤ := (k : ℤ) * 2 ^ ((52 - L).toNat) with hKdef
  have htn : (((52 - L).toNat : ℤ)) = 52 - L := Int.toNat_of_nonneg (by omega)
  have hKcast : (K : ℚ) = (k : ℚ) * (2 : ℚ) ^ ((52 : ℤ) - L) := by
    rw [hKdef]
    push_cast
    rw [← zpow_natCast (2 : ℚ) ((52 - L).toNat), htn]
  have hKgrid : (K : ℚ) * 2 ^ (eExp q) = (k : ℚ) := by
    rw [heexp, hKcast, mul_assoc, ← zpow_add₀ h2ne]
    rw [show ((52 : ℤ) - L + (L - 52)) = 0 by ring]
    simp
  have errb : |q - (99 * n : ℚ) / 100| = (n : ℚ) * (8 / (100 * 2 ^ 53)) := by
    have e0 : (99 * n : ℚ) / 100 - q = (n : ℚ) * ((99 : ℚ) / 100 - fp099) := by
      rw [hqdef]; ring
    rw [abs_sub_comm, e0, fp099_delta, abs_of_nonneg (by positivity)]
  have hcond : |q - (K : ℚ) * 2 ^ (eExp q)| < 2 ^ (eExp q) / 2 := by
    rw [hKgrid, heexp, hsplit, ← hqk, errb, zpow_neg53]
    have hgt : (8 / 100 : ℚ) * (n : ℚ) < (2 : ℚ) ^ L := by linarith
    have h53 : (0 : ℚ) < (1 : ℚ) / 2 ^ 53 := by norm_num
    have hmul := mul_lt_mul_of_pos_right hgt h53
    calc (n : ℚ) * (8 / (100 * 2 ^ 53)) = 8 / 100 * (n : ℚ) * (1 / 2 ^ 53) := by ring
      _ < 2 ^ L * (1 / 2 ^ 53) := hmul
  rw [fpRound_exact q K hcond, hKgrid]

theorem i99_eq (n : ℕ) (h1 : 1 ≤ n) (h2 : n ≤ 65535) : i99 n = 99 * n / 100 := by
  by_cases hr : 99 * n % 100 = 0
  · rw [i99, i99_exact n h1 h2 hr, Int.floor_natCast]
    exact Int.toNat_natCast _
  · have key := i99_err n h1 h2
    set m := 99 * n / 100 with hmdef
    set r := 99 * n % 100 with hrdef
    have heq : 99 * n = 100 * m + r := by omega
    have hr1 : 1 ≤ r := by omega
    have hr99 : r ≤ 99 := by omega
    have hqm : (99 * n : ℚ) / 100 = (m : ℚ) + (r : ℚ) / 100 := by
      have hcast : ((99 * n : ℕ) : ℚ) = ((100 * m + r : ℕ) : ℚ) := by exact_mod_cast heq
      push_cast at hcast
      linarith
    have hrq1 : (1 : ℚ) ≤ (r : ℚ) := by exact_mod_cast hr1
    have hrq99 : (r : ℚ) ≤ 99 := by exact_mod_cast hr99
    rw [abs_lt, hqm] at key
    obtain ⟨key1, key2⟩ := key
    have hfl : ⌊fpRound ((n : ℚ) * fp099)⌋ = (m : ℤ) := by
      rw [Int.floor_eq_iff]
      push_cast
      constructor
      · linarith
      · linarith
    rw [i99, hfl]
    exact Int.toNat_natCast m

/-! ### Helper lemmas: structure-update projections -/

theorem updateEWMAs_values (s : TimeSeries) : s.updateEWMAs.values = s.values := rfl

theorem updateEWMAs_cap (s : TimeSeries) : s.updateEWMAs.cap = s.cap := rfl

theorem updateEWMAs_mean (s : TimeSeries) : s.updateEWMAs.mean = s.mean := rfl

theorem updateEWMAs_sumAD (s : TimeSeries) : s.updateEWMAs.sumAD = s.sumAD := rfl

theorem updateEWMAs_sumVT (s : TimeSeries) : s.updateEWMAs.sumVT = s.sumVT := rfl

theorem updateEWMAs_sumTT (s : TimeSeries) : s.updateEWMAs.sumTT = s.sumTT := rfl

theorem updateEWMAs_delta_t (s : TimeSeries) : s.updateEWMAs.delta_t = s.delta_t := rfl

theorem ite_closed_iff (c : Prop) [Decidable c] :
    (if c then CLOSED else HALF_OPEN) = CLOSED ↔ c := by
  split_ifs with h <;> simp [h]

/-! ### Claim theorems -/

/-- C3: the claim says `newMetrics(size)` builds four TimeSeries all with
buffer capacity `size` and `_size = size`.  The code initializes only
`concurrency`, `latency` and `errors`; `requests` is left at the Go zero
value (capacity 0, `_size` 0).  Evaluated here at the failing input
`size = 100`. -/
theorem c3_requests_left_unsized :
    (newMetrics 100).concurrency.cap = 100 ∧ (newMetrics 100).concurrency._size = 100 ∧
    (newMetrics 100).latency.cap = 100 ∧ (newMetrics 100).latency._size = 100 ∧
    (newMetrics 100).errors.cap = 100 ∧ (newMetrics 100).errors._size = 100 ∧
    (newMetrics 100).requests.cap = 0 ∧ (newMetrics 100).requests._size = 0 :=
  ⟨rfl, rfl, rfl, rfl, rfl, rfl, rfl, rfl⟩

/-- C10: `Mean()` on a TimeSeries whose `values` buffer is non-empty but
whose mean EWMA triple is still nil returns the raw running batch mean
`s.mean` — not 0 and not the confidence-weighted blend. -/
theorem c10_mean_uninitialized (s : TimeSeries) (h1 : s.values ≠ [])
    (h2 : s.value = none) : s.Mean = s.mean := by
  have hlen : ¬ (s.values.length = 0) := by simpa using h1
  rw [TimeSeries.Mean]
  simp [hlen, h2]

/-- Witness for C10 at a concrete series with one buffered sample and no
flushed history. -/
theorem c10_mean_uninitialized_witness :
    ({ zeroTS with values := [3], mean := 3 } : TimeSeries).Mean = 3 := by
  have h := c10_mean_uninitialized { zeroTS with values := [3], mean := 3 }
    (by simp) rfl
  simpa using h

/-- C8 counterexample: the claim says `derivative()` returns 0 when
`sum_tt = 0` and never divides by zero.  In the source the division
`sumXY / sumXX` is unconditional: on a series holding a single sample
(`sum_vt = sum_tt = 0`, here after `record(3.0, t=100µs)` on a fresh
capacity-5 series) it computes `0.0/0.0 = NaN`, not 0. -/
theorem c8_derivative_nan :
    ((mkSeries 5).Record 3 100).Derivative = FloatVal.nan ∧
    FloatVal.nan ≠ FloatVal.finite 0 := by
  constructor
  · rw [TimeSeries.Record]
    norm_num [mkSeries, zeroTS, TimeSeries.Derivative, goDivFin,
      TimeSeries.updateEWMAs]
  · intro h
    exact FloatVal.noConfusion h

/-- C8 amended: `derivative()` computes `sum_vt / sum_tt` unconditionally;
the quotient is the finite exact value when `sum_tt ≠ 0`, but when
`sum_tt = 0` (an empty batch, or a batch holding a single sample) the Go
division yields NaN rather than 0. -/
theorem c8_derivative_amended (s : TimeSeries) (n : ℕ) (v : ℚ) (t : ℤ)
    (h1 : s.sumTT ≠ 0) (h2 : 2 ≤ n) :
    s.Derivative = FloatVal.finite (s.sumVT / s.sumTT) ∧
    ((mkSeries n).Record v t).Derivative = FloatVal.nan ∧
    (mkSeries n).Derivative = FloatVal.nan := by
  refine ⟨?_, ?_, ?_⟩
  · rw [TimeSeries.Derivative, goDivFin, if_neg h1]
  · have hn0 : 0 < n := by omega
    have hn1 : ¬ (1 = n) := by omega
    rw [TimeSeries.Record]
    norm_num [mkSeries, zeroTS, TimeSeries.Derivative, goDivFin,
      TimeSeries.updateEWMAs, hn0, hn1]
  · rw [TimeSeries.Derivative]
    norm_num [mkSeries, zeroTS, goDivFin]

/-- Witness for C8's amended statement at concrete inputs. -/
theorem c8_derivative_amended_witness :
    ({ zeroTS with sumTT := 1, sumVT := 5 } : TimeSeries).Derivative =
      FloatVal.finite (5 / 1) ∧
    ((mkSeries 5).Record 3 100).Derivative = FloatVal.nan ∧
    (mkSeries 5).Derivative = FloatVal.nan :=
  c8_derivative_amended { zeroTS with sumTT := 1, sumVT := 5 } 5 3 100
    (by norm_num) (by norm_num)

/-- C2: the claim (and the spec) say that immediately after every flush the
running aggregates `delta_t`, `mean`, `sum_abs_dev`, `sum_vt`, `sum_tt` are
all reset to zero along with the buffer.  The source's flush only truncates
`values`; the aggregates carry over.  Failing input: capacity-2 series,
`record(0, t=10µs)` then `record(1, t=11µs)` (the second record flushes). -/
theorem c2_flush_keeps_aggregates :
    (((mkSeries 2).Record 0 10).Record 1 11).values = [] ∧
    (((mkSeries 2).Record 0 10).Record 1 11).mean = 1/2 ∧
    (((mkSeries 2).Record 0 10).Record 1 11).sumAD = 1/2 ∧
    (((mkSeries 2).Record 0 10).Record 1 11).sumVT = 1 ∧
    (((mkSeries 2).Record 0 10).Record 1 11).sumTT = 1 ∧
    (((mkSeries 2).Record 0 10).Record 1 11).delta_t = 10 := by
  rw [TimeSeries.Record, TimeSeries.Record]
  norm_num [mkSeries, zeroTS, updateEWMAs_values, updateEWMAs_mean,
    updateEWMAs_sumAD, updateEWMAs_sumVT, updateEWMAs_sumTT,
    updateEWMAs_delta_t, updateEWMAs_cap]

/-- C6 counterexample: the claim says that (under `errors.mean()` within
SLO) `new_state()` yields CLOSED iff
`fill_rate · size > 1 / max(mean_mid, 0.1)`, so that any `mean_mid`
strictly between 0 and 0.1 gives threshold 10.  At `cbHalfProbe`
(`mean_mid = 0.05`, `fill_rate · size = 15`) the spec formula holds
(`15 > 10`) yet the source compares against `1/0.05 = 20` and stays
HALF_OPEN. -/
theorem c6_threshold_counterexample :
    cbHalfProbe.state = HALF_OPEN ∧
    ¬ (cbHalfProbe.metrics.errors.Mean > 1 - cbHalfProbe.revised_slo.SuccessRate) ∧
    specCloseCondition cbHalfProbe ∧
    cbHalfProbe.newState ≠ CLOSED := by
  refine ⟨rfl, ?_, ?_, ?_⟩
  · rw [TimeSeries.Mean]
    norm_num [cbHalfProbe, tsErrProbe, zeroTS, newMetrics, NewCircuitBreaker,
      sloA]
  · rw [specCloseCondition, TimeSeries.FillRate, TimeSeries.MeanMid]
    norm_num [cbHalfProbe, tsErrProbe, zeroTS, newMetrics, NewCircuitBreaker,
      sloA]
  · rw [CircuitBreaker.newState, TimeSeries.Mean]
    norm_num [cbHalfProbe, tsErrProbe, zeroTS, newMetrics, NewCircuitBreaker,
      sloA, TimeSeries.FillRate, TimeSeries.MeanMid]
    decide

/-- C6 amended: in the HALF_OPEN decision (with `errors.mean()` within the
SLO), `new_state()` yields CLOSED iff
`fill_rate · size > 1 / mean_mid` when `mean_mid ≠ 0`, and iff
`fill_rate · size > 1 / 0.1 = 10` when `mean_mid = 0`: the `0.1` floor is
applied only at exactly zero, not below `0.1`. -/
theorem c6_close_threshold (cb : CircuitBreaker) (h1 : cb.state = HALF_OPEN)
    (h2 : ¬ (cb.metrics.errors.Mean > 1 - cb.revised_slo.SuccessRate)) :
    cb.newState = CLOSED ↔
      cb.metrics.errors.FillRate * (cb.metrics.errors._size : ℚ) >
        1 / (if cb.metrics.errors.MeanMid = 0 then (1 : ℚ)/10
             else cb.metrics.errors.MeanMid) := by
  rw [CircuitBreaker.newState, if_neg (by simp [h1]), if_neg h2]
  by_cases h3 : cb.metrics.errors.MeanMid = 0
  · simp only [h3, eq_self_iff_true, if_true]
    exact ite_closed_iff _
  · simp only [h3, if_false]
    exact ite_closed_iff _

/-- Witness for C6's amended statement at a fresh HALF_OPEN breaker
(`mean_mid = 0`, `fill_rate = 0`). -/
theorem c6_close_threshold_witness :
    cbHalfFresh.newState = CLOSED ↔
      cbHalfFresh.metrics.errors.FillRate * (cbHalfFresh.metrics.errors._size : ℚ) >
        1 / (if cbHalfFresh.metrics.errors.MeanMid = 0 then (1 : ℚ)/10
             else cbHalfFresh.metrics.errors.MeanMid) :=
  c6_close_threshold cbHalfFresh rfl
    (by rw [TimeSeries.Mean]
        norm_num [cbHalfFresh, zeroTS, newMetrics, NewCircuitBreaker, sloA])

/-- C7: `must_open()` is true iff the success-rate condition fires or all
three weight-1 anomaly conditions (latency deviation, concurrency
deviation, request derivative) fire together; no other combination of the
weight-1 flags reaches the threshold of 3. -/
theorem c7_must_open_iff (cb : CircuitBreaker) :
    cb.mustOpen = true ↔
      (cb.successRateBreach ∨
        (cb.latencyAnomaly ∧ cb.concurrencyAnomaly ∧ cb.rpsAnomaly)) := by
  rw [CircuitBreaker.mustOpen]
  by_cases h1 : cb.successRateBreach <;>
    by_cases h2 : cb.latencyAnomaly <;>
      by_cases h3 : cb.concurrencyAnomaly <;>
        by_cases h4 : cb.rpsAnomaly <;>
          simp [h1, h2, h3, h4]

/-- C5: entering `Call` in OPEN state: while `now - last_open_at` is below
the revised timeout the call is refused with `(OPEN, ErrCircuitOpen)`, `f`
is not invoked and the breaker is unchanged; once the cooldown has elapsed
the breaker transitions to HALF_OPEN and the call proceeds exactly as a
HALF_OPEN call (so the cooldown refusal error is returned exactly in the
first case). -/
theorem c5_open_cooldown (cb : CircuitBreaker) (start endT : ℤ)
    (fErr : Option ℕ) (h : cb.state = OPEN) :
    (start - cb.lastOpenAt < cb.revised_slo.Timeout →
      cb.Call start endT fErr =
        { state := OPEN, err := some CBError.ErrCircuitOpen, cb := cb,
          invoked := false }) ∧
    (¬ (start - cb.lastOpenAt < cb.revised_slo.Timeout) →
      cb.Call start endT fErr =
        ({ cb with state := HALF_OPEN }).Call start endT fErr) := by
  constructor
  · intro hto
    rw [CircuitBreaker.Call]
    simp [h, hto]
  · intro hto
    rw [CircuitBreaker.Call, CircuitBreaker.Call]
    simp [h, hto]

/-- Witness for C5 at `cbOpen` (`last_open_at = 0`, timeout 10 µs): a call
at `t = 5` is refused, a call at `t = 20` proceeds as a HALF_OPEN call. -/
theorem c5_open_cooldown_witness :
    cbOpen.Call 5 6 none =
      { state := OPEN, err := some CBError.ErrCircuitOpen, cb := cbOpen,
        invoked := false } ∧
    cbOpen.Call 20 21 none = ({ cbOpen with state := HALF_OPEN }).Call 20 21 none :=
  ⟨(c5_open_cooldown cbOpen 5 6 none rfl).1
      (by norm_num [cbOpen, NewCircuitBreaker, sloA]),
   (c5_open_cooldown cbOpen 20 21 none rfl).2
      (by norm_num [cbOpen, NewCircuitBreaker, sloA])⟩

/-- C4: the claim says `expunge()` works at any point of the façade's
lifecycle.  Before promotion it does install a fresh `WarmupCB` (state
INIT, `ready = false`, so the next call takes the warm-up path), but after
promotion the type assertion `l.cb.(*WarmupCB)` is performed on a
`*CircuitBreaker` and panics (modelled as `none`). -/
theorem c4_expunge_panics_after_promotion :
    leveePromoted.Expunge 0 = none ∧
    (leveeWarm.Expunge 0).map Levee.CurState = some INIT ∧
    (leveeWarm.Expunge 0).map Levee.ready = some false :=
  ⟨rfl, rfl, rfl⟩

theorem bump_mustOpen (cb : CircuitBreaker) : cb.bump.mustOpen = cb.mustOpen := rfl

theorem afterRecords_state (cb : CircuitBreaker) (start endT : ℤ) (fErr : Option ℕ) :
    (cb.afterRecords start endT fErr).state = cb.state := by
  cases fErr <;> rfl

/-- A HALF_OPEN breaker's `newState` never returns INIT (it is OPEN, CLOSED
or HALF_OPEN). -/
theorem newState_ne_INIT (cb : CircuitBreaker) (h : cb.state = HALF_OPEN) :
    cb.newState ≠ INIT := by
  rw [CircuitBreaker.newState, if_neg (by simp [h])]
  intro hcontra
  simp only [] at hcontra
  split_ifs at hcontra <;> exact State.noConfusion hcontra

theorem cbFresh_mustOpen : cbFresh.mustOpen = false := by
  have h1 : ¬ cbFresh.successRateBreach := by
    rw [CircuitBreaker.successRateBreach, TimeSeries.Mean]
    norm_num [cbFresh, NewCircuitBreaker, sloA, newMetrics, zeroTS]
  have h2 : ¬ cbFresh.latencyAnomaly := by
    rw [CircuitBreaker.latencyAnomaly, TimeSeries.Deviation]
    norm_num [cbFresh, NewCircuitBreaker, sloA, newMetrics, zeroTS,
      TimeSeries.DeviationMid, TimeSeries.DeviationLong]
  have h3 : ¬ cbFresh.concurrencyAnomaly := by
    rw [CircuitBreaker.concurrencyAnomaly, TimeSeries.Deviation]
    norm_num [cbFresh, NewCircuitBreaker, sloA, newMetrics, zeroTS,
      TimeSeries.DeviationMid, TimeSeries.DeviationLong]
  have h4 : ¬ cbFresh.rpsAnomaly := by
    rw [CircuitBreaker.rpsAnomaly, TimeSeries.DerivativeQ]
    norm_num [cbFresh, NewCircuitBreaker, sloA, newMetrics, zeroTS,
      TimeSeries.DerivativeMid, TimeSeries.DerivativeLong]
  rw [CircuitBreaker.mustOpen]
  simp [h1, h2, h3, h4]

/-- The CLOSED admitted path of `Call`: records around the invocation of
`f` and returns `(CLOSED, nil)` regardless of `f`'s outcome. -/
theorem closed_call (cb : CircuitBreaker) (start endT : ℤ) (fErr : Option ℕ)
    (h : cb.state = CLOSED) (hmo : cb.mustOpen = false) :
    cb.Call start endT fErr =
      { state := CLOSED, err := none,
        cb := ((cb.bump.recordPre start).recordPost start endT fErr).unbump,
        invoked := true } := by
  rw [CircuitBreaker.Call, if_neg (by simp [h]), CircuitBreaker.callBody,
    if_neg (by simp [h]), if_neg (by simp [h, bump_mustOpen, hmo]),
    if_neg (by simp [h])]
  simp [h]

/-- C1 counterexample: the claim says an admitted call returns `f`'s error
verbatim.  On a fresh CLOSED breaker (`cbFresh`) with `f` returning error
value 7, `Call` invokes `f` but returns a nil error (`return state, nil` on
the CLOSED path). -/
theorem c1_closed_swallows_error :
    (cbFresh.Call 0 5 (some 7)).invoked = true ∧
    (cbFresh.Call 0 5 (some 7)).err = none := by
  rw [closed_call cbFresh 0 5 (some 7) rfl cbFresh_mustOpen]
  exact ⟨rfl, rfl⟩

/-- C1 amended: when the breaker admits `f` (CLOSED and not forced open, or
HALF_OPEN and not capped), `Call` invokes `f`, but `f`'s error is returned
verbatim only when the entering state is HALF_OPEN and the post-call
decision stays HALF_OPEN; on the CLOSED path, and on a HALF_OPEN call that
transitions to OPEN or CLOSED, the returned error is nil and `f`'s error is
discarded. -/
theorem c1_error_propagation (cb : CircuitBreaker) (start endT : ℤ) (e : ℕ)
    (hstate : cb.state = CLOSED ∨ cb.state = HALF_OPEN)
    (hclosed : cb.state = CLOSED → cb.mustOpen = false)
    (hhalf : cb.state = HALF_OPEN → cb.bump.allowCall = true) :
    (cb.Call start endT (some e)).invoked = true ∧
    (cb.Call start endT (some e)).err =
      (if cb.state = HALF_OPEN ∧
          (cb.afterRecords start endT (some e)).newState = HALF_OPEN
       then some (CBError.user e) else none) := by
  rcases hstate with h | h
  · have hmo := hclosed h
    rw [CircuitBreaker.Call, if_neg (by simp [h])]
    rw [CircuitBreaker.callBody]
    rw [if_neg (by simp [h]), if_neg (by simp [h, bump_mustOpen, hmo])]
    rw [if_neg (by simp [h])]
    simp [h]
  · have hac := hhalf h
    have hni := newState_ne_INIT (cb.afterRecords start endT (some e))
      (by rw [afterRecords_state, h])
    rw [CircuitBreaker.Call, if_neg (by simp [h])]
    rw [CircuitBreaker.callBody]
    rw [if_neg (by simp [hac]), if_neg (by simp [h])]
    rw [if_pos h]
    have heq : ((cb.bump.recordPre start).recordPost start endT (some e)) =
        cb.afterRecords start endT (some e) := rfl
    rw [heq]
    cases hns : (cb.afterRecords start endT (some e)).newState with
    | INIT => exact absurd hns hni
    | CLOSED =>
        simp [h, hns, CircuitBreaker.CloseCircuit, CircuitBreaker.OpenCircuit,
          CircuitBreaker.unbump]
    | OPEN =>
        simp [h, hns, CircuitBreaker.CloseCircuit, CircuitBreaker.OpenCircuit,
          CircuitBreaker.unbump]
    | HALF_OPEN => simp [h, hns]

/-- Witness for C1's amended statement on the fresh CLOSED breaker. -/
theorem c1_error_propagation_witness :
    (cbFresh.Call 0 5 (some 7)).invoked = true ∧
    (cbFresh.Call 0 5 (some 7)).err =
      (if cbFresh.state = HALF_OPEN ∧
          (cbFresh.afterRecords 0 5 (some 7)).newState = HALF_OPEN
       then some (CBError.user 7) else none) :=
  c1_error_propagation cbFresh 0 5 7 (Or.inl rfl)
    (fun _ => by
      rw [CircuitBreaker.mustOpen]
      norm_num [cbFresh, NewCircuitBreaker, sloA, newMetrics, zeroTS,
        CircuitBreaker.successRateBreach, CircuitBreaker.latencyAnomaly,
        CircuitBreaker.concurrencyAnomaly, CircuitBreaker.rpsAnomaly,
        TimeSeries.Mean, TimeSeries.Deviation, TimeSeries.DeviationMid,
        TimeSeries.DeviationLong, TimeSeries.DerivativeQ,
        TimeSeries.DerivativeMid, TimeSeries.DerivativeLong])
    (fun hcontra => by simp [cbFresh, NewCircuitBreaker, sloA] at hcontra)

/-- C9: at flush the batch p99 is the element of the ascending sort at the
index computed as `int(float64(n) * 0.99)`; by `i99_eq` that binary64
computation equals `⌊0.99·n⌋` for every batch length in range, for
`n = 100` the index is exactly 99 (the float product `100 · 0.99` rounds to
exactly `99.0` and truncates to 99), and index 99 of a sorted 100-element
batch is its maximum. -/
theorem c9_p99_selection (l : List ℚ) (h1 : 1 ≤ l.length) (h2 : l.length ≤ 65535) :
    batchP99 l = (sortAsc l).getD (99 * l.length / 100) 0 ∧
    i99 100 = 99 ∧
    (l.length = 100 → ∀ x ∈ l, x ≤ (sortAsc l).getD 99 0) := by
  refine ⟨?_, ?_, ?_⟩
  · rw [batchP99, i99_eq l.length h1 h2]
  · rw [i99_eq 100 (by norm_num) (by norm_num)]
  · intro hlen x hx
    have hsort : (sortAsc l).Sorted (· ≤ ·) := List.sorted_insertionSort _ l
    have hmem : x ∈ sortAsc l := (List.mem_insertionSort _).2 hx
    have hslen : (sortAsc l).length = 100 := by
      rw [sortAsc, List.length_insertionSort, hlen]
    obtain ⟨i, hi⟩ := List.mem_iff_get.1 hmem
    have h99 : (99 : ℕ) < (sortAsc l).length := by omega
    have hile : i ≤ (⟨99, h99⟩ : Fin (sortAsc l).length) := by
      have hlt : i.val < 100 := hslen ▸ i.isLt
      exact Fin.le_def.2 (Nat.lt_succ_iff.mp hlt)
    have hrel := hsort.rel_get_of_le hile
    rw [hi] at hrel
    rw [List.getD_eq_getElem _ _ h99]
    simpa [List.get_eq_getElem] using hrel

/-- Witness for C9 at the two-element batch `[5, 7]`. -/
theorem c9_p99_selection_witness :
    batchP99 [(5 : ℚ), 7] =
      (sortAsc [(5 : ℚ), 7]).getD (99 * ([(5 : ℚ), 7]).length / 100) 0 ∧
    i99 100 = 99 ∧
    (([(5 : ℚ), 7]).length = 100 → ∀ x ∈ [(5 : ℚ), 7], x ≤ (sortAsc [(5 : ℚ), 7]).getD 99 0) :=
  c9_p99_selection [5, 7] (by norm_num) (by norm_num)

end Levee
